import Mathlib

/-!
Shallow embedding of the text-normalization engine of
`src/f5_tts/infer/TextProcessor.py` (class `TextProcessor`).

Text is modelled as `List Char`.  Python regex character classes are
modelled at ASCII granularity: the class `\d` is the ASCII digits
`0`-`9`, `\s` the ASCII whitespace characters, and `str.upper` /
`str.isdigit` are taken at ASCII granularity as well.  This matches the
data model of the specification, which fixes digits to ASCII `0`-`9`.

A Python exception escaping a function is modelled by `Option`: a
function that can raise returns `none` exactly where the Python code
raises.

The numeral library `cn2an` is an external dependency whose source is
not part of this repository; its `an2cn` conversion (modes `low` and
`direct`) is modelled below from the specification of the Numeral
Converter (digit-by-digit reading, place-value reading with zero
elision, decimal fractions read as "point" plus digit-by-digit), on the
domain actually reachable from this repository: sign-free strings over
digits and the decimal point.
-/

namespace TextProc

/-- ASCII digit test: the regex class `\d` and `str.isdigit` at the ASCII
granularity of the data model. -/
def isDig (c : Char) : Bool := 48 ≤ c.toNat && c.toNat ≤ 57

/-- ASCII upper-casing: `str.upper` restricted to ASCII letters. -/
def upperAscii (c : Char) : Char :=
  if 97 ≤ c.toNat && c.toNat ≤ 122 then Char.ofNat (c.toNat - 32) else c

/-- ASCII whitespace: the regex class `\s` at ASCII granularity. -/
def isWs (c : Char) : Bool :=
  c = ' ' || c = Char.ofNat 9 || c = Char.ofNat 10 || c = Char.ofNat 11 ||
  c = Char.ofNat 12 || c = Char.ofNat 13

/-- Numeric value of an ASCII digit string, as computed by Python `int`. -/
def digitsToNat (l : List Char) : Nat := l.foldl (fun a c => a * 10 + (c.toNat - 48)) 0

/-- Python `str.split(sep)` for a single-character separator: splits at every
occurrence, keeping empty pieces. -/
def splitChar (sep : Char) : List Char → List (List Char)
  | [] => [[]]
  | c :: cs =>
    let r := splitChar sep cs
    if c = sep then [] :: r
    else
      match r with
      | h :: t => (c :: h) :: t
      | [] => [[c]]

/-- Rendering mode of the cn2an numeral converter: `low` is the place-value
(cardinal) reading, `direct` the digit-by-digit reading. -/
inductive AnMode
  | low
  | direct
deriving DecidableEq

/-- Spoken word for one digit character. -/
def numeralLow (c : Char) : Char :=
  if c = '0' then '零' else if c = '1' then '一' else if c = '2' then '二'
  else if c = '3' then '三' else if c = '4' then '四' else if c = '5' then '五'
  else if c = '6' then '六' else if c = '7' then '七' else if c = '8' then '八'
  else '九'

/-- Positional magnitude word for the place `10 ^ i`, `i < 16` (the converter
supports at most 16 integer digits). -/
def unitLow : Nat → List Char
  | 0 => [] | 1 => ['十'] | 2 => ['百'] | 3 => ['千'] | 4 => ['万']
  | 5 => ['十'] | 6 => ['百'] | 7 => ['千'] | 8 => ['亿'] | 9 => ['十']
  | 10 => ['百'] | 11 => ['千'] | 12 => ['万'] | 13 => ['十'] | 14 => ['百']
  | _ => ['千']

/-- Modelled from the spec: the digit loop of the cn2an place-value integer
conversion.  A nonzero digit contributes its numeral and magnitude word; a
zero digit contributes a zero numeral at the positions `10 ^ (4 k)` and, when
the running output does not already end in the zero word, one more zero
word. -/
def icLoop (n : Nat) : Nat → List Char → List Char → List Char
  | _, acc, [] => acc
  | i, acc, d :: rest =>
    if d ≠ '0' then
      icLoop n (i + 1) (acc ++ numeralLow d :: unitLow (n - i - 1)) rest
    else
      let acc1 := if (n - i - 1) % 4 = 0 then acc ++ numeralLow d :: unitLow (n - i - 1) else acc
      let acc2 := if 0 < i ∧ acc1.getLast? ≠ some '零' then acc1 ++ ['零'] else acc1
      icLoop n (i + 1) acc2 rest

/-- One left-to-right non-overlapping pass replacing the two-character
sequence `a b` by `r` (Python `str.replace` with a two-character needle and a
one-character replacement). -/
def replace2 (a b r : Char) : List Char → List Char
  | x :: y :: rest =>
    if x = a ∧ y = b then r :: replace2 a b r rest else x :: replace2 a b r (y :: rest)
  | l => l

/-- Python `str.strip` of the zero word on both ends. -/
def stripZeros (l : List Char) : List Char :=
  ((l.dropWhile (· = '零')).reverse.dropWhile (· = '零')).reverse

/-- Modelled from the spec: the cn2an clean-up of the raw place-value
output: collapsing doubled zero words, zeros before magnitude words, the
leading "one ten", and the all-zero case. -/
def icPost (l : List Char) : List Char :=
  let r := replace2 '亿' '万' '亿' (replace2 '零' '亿' '亿' (replace2 '零' '万' '万' (replace2 '零' '零' '零' l)))
  let r := stripZeros r
  let r := match r with
    | '一' :: '十' :: rest => '十' :: rest
    | other => other
  if r.isEmpty then ['零'] else r

/-- Modelled from the spec: cn2an integer conversion in place-value mode.
Leading zeros are removed (Python `str(int(s))`); more than 16 digits exceed
the supported range and raise. -/
def integerConvert (ip : List Char) : Option (List Char) :=
  if ip.isEmpty then none
  else
    let t0 := ip.dropWhile (· = '0')
    let t := if t0.isEmpty then ['0'] else t0
    if 16 < t.length then none
    else some (icPost (icLoop t.length 0 [] t))

/-- Modelled from the spec: cn2an decimal-fraction conversion, the word
"point" followed by a digit-by-digit reading of at most 16 fractional
digits. -/
def decimalConvert (dp : List Char) : List Char :=
  if dp.isEmpty then [] else '点' :: (dp.take 16).map numeralLow

/-- Modelled from the spec: `cn2an.an2cn` on the sign-free domain reachable
from this repository.  Rejects empty input and characters other than ASCII
digits and the decimal point; `direct` reads every character independently,
`low` reads the integer part by place value and the fractional part
digit-by-digit after the word "point". -/
def an2cn (mode : AnMode) (s : List Char) : Option (List Char) :=
  if s.isEmpty then none
  else if ¬ s.all (fun c => isDig c || c = '.') then none
  else
    match mode with
    | .direct => some (s.map (fun c => if c = '.' then '点' else numeralLow c))
    | .low =>
      match splitChar '.' s with
      | [ip] => integerConvert ip
      | [ip, dp] => (integerConvert ip).map (· ++ decimalConvert dp)
      | _ => none

/-- Parse a nonempty ASCII digit string (Python `int` on the strings produced
by the time regexes). -/
def parseNat (l : List Char) : Option Nat :=
  if l.isEmpty then none
  else if ¬ l.all isDig then none
  else some (digitsToNat l)

/-- Decimal digit string of a natural number (Python `str` on `int`). -/
def natDigits (n : Nat) : List Char := (Nat.repr n).data

/-- Leading-zero stripping used by `convert_datetime_to_chinese`:
Python `num.lstrip("0") or "0"`, then the default (place-value) reading. -/
def convStripped (num : List Char) : Option (List Char) :=
  let t := num.dropWhile (· = '0')
  an2cn .low (if t.isEmpty then ['0'] else t)

/-- Builds the hour/minute/second pieces of a converted datetime: the first
three time components with their labels, each stripped of leading zeros. -/
def dtTimeLabeled (tps : List (List Char)) (base : List Char) : Option (List Char) :=
  ((tps.take 3).zip ["时".data, "分".data, "秒".data]).foldlM
    (fun acc pl => (convStripped pl.1).map (fun c => acc ++ c ++ pl.2)) base

/-- Embedding of `TextProcessor.convert_datetime_to_chinese`.  Splits on a
single space, reads the year digit-by-digit, month/day and up to three time
components by place value after stripping leading zeros, and appends a
millisecond component with the milliseconds word.  A component split that
does not unpack (Python `ValueError`) or an invalid numeral gives `none`. -/
def convert_datetime_to_chinese (s : List Char) : Option (List Char) :=
  let parts := splitChar ' ' s
  let datePart := parts.headD []
  let sep? : Option Char :=
    if '-' ∈ datePart then some '-' else if '/' ∈ datePart then some '/' else none
  match sep? with
  | none => some s
  | some sep =>
    match splitChar sep datePart with
    | [y, m, d] =>
      let timeParts : Option (List (List Char)) :=
        match parts with
        | _ :: tp :: _ =>
          if ',' ∈ tp then
            match splitChar ',' tp with
            | [hms, ms] => some (splitChar ':' hms ++ [ms])
            | _ => none
          else some (splitChar ':' tp)
        | _ => some []
      timeParts.bind fun tps =>
      (an2cn .direct y).bind fun cy =>
      (convStripped m).bind fun cm =>
      (convStripped d).bind fun cd =>
      let base := cy ++ "年".data ++ cm ++ "月".data ++ cd ++ "日".data
      (dtTimeLabeled tps base).bind fun withTime =>
      if 3 < tps.length then
        match tps[3]? with
        | some ms => (convStripped ms).map (fun c => withTime ++ c ++ "毫秒".data)
        | none => none
      else some withTime
    | _ => none

/-- Embedding of `TextProcessor.convert_time_to_chinese`: `H:MM` becomes the
hour by place value plus the hour word, with nonzero minutes appended by
place value. -/
def convert_time_to_chinese (s : List Char) : Option (List Char) :=
  match splitChar ':' s with
  | [h, m] =>
    (parseNat h).bind fun hn =>
    (parseNat m).bind fun mn =>
    (an2cn .low (natDigits hn)).bind fun ch =>
    (an2cn .low (natDigits mn)).map fun cm =>
      if mn = 0 then ch ++ "点".data else ch ++ "点".data ++ cm
  | _ => none

/-- Embedding of `TextProcessor.convert_timefull_to_chinese`: two clock
times joined by the word for "to". -/
def convert_timefull_to_chinese (s : List Char) : Option (List Char) :=
  match splitChar '-' s with
  | [a, b] =>
    (convert_time_to_chinese a).bind fun ca =>
    (convert_time_to_chinese b).map fun cb => ca ++ "到".data ++ cb
  | _ => none

/-- One entry of the unit suffix table: a rendering mode and an optional
allowed-length set for the numeral part. -/
structure SuffixRule where
  mode : AnMode
  lengths : Option (List Nat)
deriving DecidableEq

/-- The suffix scan of `convert_num_to_chinese`: Python iterates the rule
table in insertion order and takes the first suffix (upper-cased) that is a
literal trailing match of the (upper-cased) input. -/
def findSuffix (rules : List (List Char × SuffixRule)) (s : List Char) :
    Option (List Char × SuffixRule) :=
  match rules with
  | [] => none
  | (suf, r) :: rest =>
    let su := suf.map upperAscii
    if su.isSuffixOf s then some (su, r) else findSuffix rest s

/-- The mode actually used for a matched non-percent suffix rule: the rule
mode, demoted to place value when an allowed-length set is present and the
numeral length `n` is not in it. -/
def ruleMode (r : SuffixRule) (n : Nat) : AnMode :=
  match r.lengths with
  | some L => if n ∈ L then r.mode else .low
  | none => r.mode

/-- The body of `convert_num_to_chinese` after space removal, sign
stripping and upper-casing, with `pre` the sign prefix word.  A percent-type
suffix converts by place value behind a "percent of" word (the sign prefix
kept, the suffix not appended); any other matched suffix converts in the
rule mode, demoted to place value when a length set is present and excludes
the numeral length, and is appended after the numeral.  With no suffix, a
4-digit number within one year of the current year and any digit string with
a leading zero are read digit-by-digit (dropping the sign prefix); everything
else is read by place value behind the sign prefix. -/
def convertCore (y : Int) (pre : List Char) (s : List Char)
    (rules : List (List Char × SuffixRule)) : Option (List Char) :=
  match findSuffix rules s with
  | some (suf, r) =>
    let numPart := if suf.isEmpty then [] else s.take (s.length - suf.length)
    if suf = "%".data ∨ suf = "‰".data ∨ suf = "‱".data then
      (an2cn .low numPart).map fun cn =>
        let center :=
          if ['‰'].isSuffixOf s then "千分之".data
          else if ['‱'].isSuffixOf s then "万分之".data
          else "百分之".data
        pre ++ center ++ cn
    else
      (an2cn (ruleMode r numPart.length) numPart).map fun cn => pre ++ cn ++ suf
  | none =>
    if (¬ s.isEmpty ∧ s.all isDig) ∧ s.length = 4 ∧
        (y - 1 ≤ (digitsToNat s : Int) ∧ (digitsToNat s : Int) ≤ y + 1) then
      an2cn .direct s
    else if (¬ s.isEmpty ∧ s.all isDig) ∧ s.head? = some '0' then
      an2cn .direct s
    else
      (an2cn .low s).map (pre ++ ·)

/-- Embedding of `TextProcessor.convert_num_to_chinese`, with the current
wall-clock year `y` made an explicit parameter (the Python code reads it via
`datetime.datetime.now().year`).  Removes spaces; a leading `-` contributes
a "negative" prefix word and a leading `+` contributes nothing, all `+`/`-`
characters then being removed; the rest is upper-cased and dispatched to
`convertCore`. -/
def convert_num_to_chinese (y : Int) (s0 : List Char)
    (rules : List (List Char × SuffixRule)) : Option (List Char) :=
  if s0.isEmpty then some s0
  else
    let s1 := s0.filter (· ≠ ' ')
    if s1.head? = some '-' ∨ s1.head? = some '+' then
      let pre := if s1.head? = some '-' then "负".data else []
      convertCore y pre (((s1.filter (· ≠ '+')).filter (· ≠ '-')).map upperAscii) rules
    else
      convertCore y [] (s1.map upperAscii) rules

/-- The unit strings of `replace_chinese_number`, in the order
`direct_units + low_units` used both for the rule table and for the
alternation in the number regex. -/
def unitsList : List String :=
  ["年", "后", "%", "‰", "‱", "月", "日", "小时", "分钟", "秒", "个", "人", "次", "份",
   "元", "美元", "米", "千克", "升", "遍", "件", "瓶", "款",
   "道", "天", "多", "家", "双", "KG", "℃"]

/-- The suffix-rule table built in `replace_chinese_number`: the two direct
units carry length sets (`年` length 4, `后` length 2, each listed twice as
in the source) and direct mode; every low unit carries plain place-value
mode. -/
def suffixRulesDefault : List (List Char × SuffixRule) :=
  [("年".data, ⟨.direct, some [4, 4]⟩), ("后".data, ⟨.direct, some [2, 2]⟩)] ++
  (unitsList.drop 2).map (fun u => (u.data, ⟨.low, none⟩))

/-- Matcher type: at the current position, either fail or split the input
into the consumed token and the rest. -/
def P : Type := List Char → Option (List Char × List Char)

/-- Match one character satisfying a predicate. -/
def pch (f : Char → Bool) : P := fun l =>
  match l with
  | [] => none
  | c :: cs => if f c then some ([c], cs) else none

/-- Sequencing of matchers. -/
def pseq (p q : P) : P := fun l =>
  match p l with
  | none => none
  | some (a, r) =>
    match q r with
    | none => none
    | some (b, r2) => some (a ++ b, r2)

/-- Ordered alternation (the Python regex engine tries alternatives left to
right and keeps the first that lets the whole pattern match). -/
def palt (p q : P) : P := fun l =>
  match p l with
  | some x => some x
  | none => q l

/-- Match nothing. -/
def pemp : P := fun l => some ([], l)

/-- Always fail. -/
def pfail : P := fun _ => none

/-- Pattern-final greedy option. -/
def popt (p : P) : P := palt p pemp

/-- Greedy option with explicit continuation: `p? k` tries `p` then `k`, and
falls back to `k` alone (regex backtracking over an optional group). -/
def poptSeq (p k : P) : P := palt (pseq p k) k

/-- Exactly `n` characters satisfying a predicate. -/
def pexact (f : Char → Bool) : Nat → P
  | 0 => pemp
  | n + 1 => pseq (pch f) (pexact f n)

/-- Maximal possibly-empty run of characters satisfying a predicate. -/
def prun (f : Char → Bool) : P := fun l =>
  some (l.takeWhile f, l.dropWhile f)

/-- Maximal nonempty run of characters satisfying a predicate. -/
def prun1 (f : Char → Bool) : P := fun l =>
  match l with
  | [] => none
  | c :: _ => if f c then prun f l else none

/-- Literal string match. -/
def pstrL (s : String) : P := fun l =>
  if s.data.isPrefixOf l then some (s.data, l.drop s.data.length) else none

/-- Greedy pattern-final counted run `\d{lo,hi}` with nothing after it in the
pattern: takes `min hi run` characters and needs at least `lo`. -/
def prange (f : Char → Bool) (lo hi : Nat) : P := fun l =>
  let a := l.takeWhile f
  if a.length < lo then none
  else
    let t := min hi a.length
    some (a.take t, a.drop t ++ l.dropWhile f)

/-- Backtracking `\d{1,2}` with continuation `k`: two digits then `k`, else
one digit then `k`. -/
def d12 (k : P) : P := palt (pseq (pexact isDig 2) k) (pseq (pexact isDig 1) k)

/-- Separator class (slash or dash) of the datetime pattern. -/
def sepP : P := pch (fun c => c = '/' || c = '-')

/-- Literal-character matchers used by the patterns. -/
def colonP : P := pch (· = ':')

/-- Comma matcher. -/
def commaP : P := pch (· = ',')

/-- Dash matcher. -/
def dashP : P := pch (· = '-')

/-- Plus matcher. -/
def plusP : P := pch (· = '+')

/-- Dot matcher. -/
def dotP : P := pch (· = '.')

/-- Sign class `[+-]`. -/
def signP : P := pch (fun c => c = '+' || c = '-')

/-- Arithmetic operator class `[+\-*/=]`. -/
def opP : P := pch (fun c => c = '+' || c = '-' || c = '*' || c = '/' || c = '=')

/-- Millisecond part `(?:,\d{1,3})?` of the datetime pattern
(pattern-final). -/
def dtMsOpt : P := popt (pseq commaP (prange isDig 1 3))

/-- Seconds part `(?::\d{1,2}(?:,\d{1,3})?)?` of the datetime pattern
(pattern-final). -/
def dtSecOpt : P := popt (pseq colonP (d12 dtMsOpt))

/-- Optional time part `(?:\s\d{1,2}:\d{1,2}(?::\d{1,2}(?:,\d{1,3})?)?)?`
of the datetime pattern (pattern-final). -/
def dtTimeOpt : P := popt (pseq (pch isWs) (d12 (pseq colonP (d12 dtSecOpt))))

/-- The datetime pattern
four digits, a slash-or-dash separator, one or two digits, a separator, one or two digits, then an optional time part. -/
def datetimeM : P :=
  pseq (pexact isDig 4) (pseq sepP (d12 (pseq sepP (d12 dtTimeOpt))))

/-- The time-range pattern `\d{1,2}:\d{2}-\d{1,2}:\d{2}`. -/
def timefullM : P :=
  d12 (pseq colonP (pseq (pexact isDig 2)
    (pseq dashP (d12 (pseq colonP (pexact isDig 2))))))

/-- The clock-time pattern `\d{1,2}:\d{2}`. -/
def timeM : P := d12 (pseq colonP (pexact isDig 2))

/-- Phone alternative `\+?86-?1[3-9]\d{9}`. -/
def phAlt1 : P :=
  poptSeq plusP (pseq (pstrL "86")
    (poptSeq dashP (pseq (pch (· = '1')) (pseq (pch (fun c => '3' ≤ c && c ≤ '9')) (pexact isDig 9)))))

/-- Phone alternative `1[3-9]\d{9}`. -/
def phAlt2 : P :=
  pseq (pch (· = '1')) (pseq (pch (fun c => '3' ≤ c && c ≤ '9')) (pexact isDig 9))

/-- Phone alternative `\d{3,4}-\d{7,8}` (greedy `\d{3,4}` backtracks against
the dash; the trailing `\d{7,8}` is pattern-final). -/
def phAlt3 : P :=
  palt (pseq (pexact isDig 4) (pseq dashP (prange isDig 7 8)))
       (pseq (pexact isDig 3) (pseq dashP (prange isDig 7 8)))

/-- Phone alternative `\+\d{1,4}-\d{6,14}`. -/
def phAlt4 : P :=
  pseq plusP
    (palt (pseq (pexact isDig 4) (pseq dashP (prange isDig 6 14)))
    (palt (pseq (pexact isDig 3) (pseq dashP (prange isDig 6 14)))
    (palt (pseq (pexact isDig 2) (pseq dashP (prange isDig 6 14)))
          (pseq (pexact isDig 1) (pseq dashP (prange isDig 6 14))))))

/-- The phone pattern, alternatives in source order. -/
def phoneM : P := palt phAlt1 (palt phAlt2 (palt phAlt3 phAlt4))

/-- Fractional part `\.\d+` (maximal digits: every continuation used with it
rejects a digit, so a shorter run can never rescue a failed match). -/
def fracP : P := pseq dotP (prun1 isDig)

/-- A signed decimal `[+-]?\d+(?:\.\d+)?` followed by continuation `k`, with
the regex backtracking over the optional fraction. -/
def numThen (k : P) : P :=
  poptSeq signP (pseq (prun1 isDig) (poptSeq fracP k))

/-- The arithmetic pattern
`(?P<l>[+-]?\d+(?:\.\d+)?)\s*(?P<op>[+\-*/=])\s*(?P<r>[+-]?\d+(?:\.\d+)?)`. -/
def mathM : P :=
  numThen (pseq (prun isWs) (pseq opP (pseq (prun isWs) (numThen pemp))))

/-- The unit alternation of the number pattern, in source order. -/
def unitsP : P := unitsList.foldr (fun u acc => palt (pstrL u) acc) pfail

/-- Character class of the negative lookahead of the bare-number
alternative: every character of the joined unit alternation (including its
`|` separators), the escaped excluded symbols (plus, minus, slash, star, equals, dollar, bar), and the digit class. -/
def inLookClass (c : Char) : Bool :=
  isDig c ||
  c ∈ ['年', '后', '%', '‰', '‱', '月', '日', '小', '时', '分', '钟', '秒', '个', '人',
       '次', '份', '元', '美', '米', '千', '克', '升', '遍', '件', '瓶', '款',
       '道', '天', '多', '家', '双', 'K', 'G', '℃', '|', '+', '-', '/', '*', '=', '$']

/-- Negative lookahead over the class above: consumes nothing, fails when the
next character is in the class. -/
def lookNeg : P := fun l =>
  match l with
  | [] => some ([], [])
  | c :: cs => if inLookClass c then none else some ([], c :: cs)

/-- Unit alternative of the number pattern:
`[+-]?\d+(?:\.\d+)?(?:\s*(?:units))`. -/
def nAlt1 : P := numThen (pseq (prun isWs) unitsP)

/-- Bare alternative of the number pattern:
`[+-]?\d+(?:\.\d+)?(?![units+excluded+digit])` (its `(?<!\d)` lookbehind is
checked by the caller). -/
def nAlt2 : P := poptSeq signP (pseq (prun1 isDig) (poptSeq fracP lookNeg))

/-- Whether the character before the current position is a digit (regex
lookbehind `(?<!\d)`; `none` at the start of the text). -/
def prevDigit : Option Char → Bool
  | some c => isDig c
  | none => false

/-- The number pattern: the unit alternative first, then the bare alternative
guarded by the `(?<!\d)` lookbehind. -/
def numberM (prev : Option Char) : P := fun l =>
  match nAlt1 l with
  | some x => some x
  | none => if prevDigit prev then none else nAlt2 l

/-- Negative lookahead `(?!\d)`. -/
def lookNotDig : P := fun l =>
  match l with
  | [] => some ([], [])
  | c :: cs => if isDig c then none else some ([], c :: cs)

/-- The signed-number pattern `(?<!\d)(?P<sign>[+\-])(?P<num>\d+(?:\.\d+)?)(?!\d)`. -/
def signM (prev : Option Char) : P := fun l =>
  if prevDigit prev then none
  else pseq signP (pseq (prun1 isDig) (pseq (popt fracP) lookNotDig)) l

/-- Scan-and-replace driver for `re.sub`: scans left to right over the
original text, tracking the character before the current position for
lookbehinds; a match is replaced through `f` (whose failure, a Python
exception inside the replacement callback, aborts the whole call) and the
scan resumes after the matched span.  Each of the patterns above consumes at
least one character, so a fuel equal to the text length is never
exhausted. -/
def reSub (m : Option Char → P) (f : List Char → Option (List Char)) :
    Nat → Option Char → List Char → Option (List Char)
  | _, _, [] => some []
  | 0, _, l => some l
  | fuel + 1, prev, c :: cs =>
    match m prev (c :: cs) with
    | some (tok, rest) =>
      match f tok with
      | none => none
      | some r =>
        match reSub m f fuel (tok.getLast?.getD c) rest with
        | none => none
        | some tail => some (r ++ tail)
    | none =>
      match reSub m f fuel (some c) cs with
      | none => none
      | some tail => some (c :: tail)

/-- Python `str.replace` for a one-character needle. -/
def replChar (sym : Char) (name : List Char) (t : List Char) : List Char :=
  t.foldr (fun c acc => if c = sym then name ++ acc else c :: acc) []

/-- The excluded-symbol string (plus, minus, slash, star, equals, dollar, bar) of `replace_chinese_number`. -/
def excludeSymbols : List Char := ['+', '-', '/', '*', '=', '$', '|']

/-- Replacement callback of the phone stage: drops `+` and `-` and reads all
digits digit-by-digit. -/
def replPhone (tok : List Char) : Option (List Char) :=
  an2cn .direct ((tok.filter (· ≠ '+')).filter (· ≠ '-'))

/-- Recover the groups `l`, `op`, `r` from a token matched by the arithmetic
pattern (the greedy re-parse agrees with the match because a fraction kept in
the token can only belong to the operand it was matched in). -/
def parseMathTok (tok : List Char) : Option (List Char × Char × List Char) :=
  let sgn : List Char × List Char :=
    match tok with
    | c :: cs => if c = '+' ∨ c = '-' then ([c], cs) else ([], tok)
    | [] => ([], [])
  let d1 := sgn.2.takeWhile isDig
  let t2 := sgn.2.dropWhile isDig
  if d1.isEmpty then none
  else
    let fr : List Char × List Char :=
      match t2 with
      | '.' :: r =>
        let fd := r.takeWhile isDig
        if fd.isEmpty then ([], t2) else ('.' :: fd, r.dropWhile isDig)
      | _ => ([], t2)
    let t4 := fr.2.dropWhile isWs
    match t4 with
    | op :: rest =>
      if op = '+' ∨ op = '-' ∨ op = '*' ∨ op = '/' ∨ op = '=' then
        some (sgn.1 ++ d1 ++ fr.1, op, rest.dropWhile isWs)
      else none
    | [] => none

/-- Spoken word of an arithmetic operator (`math_op_map`). -/
def mathOpWord (op : Char) : List Char :=
  if op = '+' then "加".data else if op = '-' then "减".data
  else if op = '*' then "乘".data else if op = '/' then "除".data else "等于".data

/-- Sign prefix word of an arithmetic operand (its leading character after
`str.startswith`): `-` gives "negative", `+` gives "positive", else nothing. -/
def operandPrefix (l : List Char) : List Char :=
  match l.head? with
  | some '-' => "负".data
  | some '+' => "正".data
  | _ => []

/-- Replacement callback of the arithmetic stage: converts both operands by
place value after `lstrip("+-")`, with sign prefix words, and maps the
operator to its spoken word. -/
def replMath (tok : List Char) : Option (List Char) :=
  match parseMathTok tok with
  | none => none
  | some (l, op, r) =>
    (an2cn .low (l.dropWhile (fun c => c = '+' || c = '-'))).bind fun cl =>
    (an2cn .low (r.dropWhile (fun c => c = '+' || c = '-'))).map fun cr =>
      operandPrefix l ++ cl ++ mathOpWord op ++ operandPrefix r ++ cr

/-- Replacement callback of the number stage: a token containing an excluded
symbol is passed through unchanged, everything else goes to
`convert_num_to_chinese` with the default rule table. -/
def replText (y : Int) (tok : List Char) : Option (List Char) :=
  if tok.any (· ∈ excludeSymbols) then some tok
  else convert_num_to_chinese y tok suffixRulesDefault

/-- Replacement callback of the signed-number stage: "positive" for `+`,
"negative" for `-`, then the place-value reading of the magnitude. -/
def replSign (tok : List Char) : Option (List Char) :=
  match tok with
  | sign :: num =>
    (an2cn .low num).map fun cn =>
      (if sign = '+' then "正".data else "负".data) ++ cn
  | [] => none

/-- Embedding of `TextProcessor.replace_chinese_number`, with the wall-clock
year `y` of `datetime.datetime.now()` made an explicit parameter.  Runs the
six substitution stages in source order (datetime, time range, clock time,
phone, arithmetic, suffixed/bare number, then the residual signed-number
stage) and finally replaces each leftover symbol of `+-*/=` by its standalone
spoken name in `symbol_map` insertion order. -/
def replace_chinese_number (y : Int) (t : List Char) : Option (List Char) := do
  let t1 ← reSub (fun _ => datetimeM) convert_datetime_to_chinese t.length none t
  let t2 ← reSub (fun _ => timefullM) convert_timefull_to_chinese t1.length none t1
  let t3 ← reSub (fun _ => timeM) convert_time_to_chinese t2.length none t2
  let t4 ← reSub (fun _ => phoneM) replPhone t3.length none t3
  let t5 ← reSub (fun _ => mathM) replMath t4.length none t4
  let t6 ← reSub numberM (replText y) t5.length none t5
  let t7 ← reSub signM replSign t6.length none t6
  pure (replChar '=' "等于".data (replChar '/' "斜杠".data (replChar '*' "星".data
    (replChar '-' "杠".data (replChar '+' "加".data t7)))))

/-- Python `str.isascii`. -/
def isAsciiC (c : Char) : Bool := c.toNat < 128

/-- Embedding of `TextProcessor.replace_corner_mark`. -/
def replace_corner_mark (t : List Char) : List Char :=
  replChar '³' "立方".data (replChar '²' "平方".data t)

/-- Embedding of `TextProcessor.replace_bracket`. -/
def replace_bracket (t : List Char) : List Char :=
  replChar '】' ['”'] (replChar '【' ['“'] (replChar '）' ['”'] (replChar '（' ['“'] t)))

/-- Loop body of `replace_blank` over the index `i`.  A space is kept only
when both neighbours are non-space ASCII; Python evaluates `text[i + 1]`
first, which raises `IndexError` when the space is the last character, and
`text[i - 1]` at `i = 0` is Python negative indexing, the last character. -/
def replaceBlankGo (t : List Char) (i : Nat) : Option (List Char) :=
  if h : i < t.length then
    let c := t.get ⟨i, h⟩
    if c = ' ' then
      match t[i + 1]? with
      | none => none
      | some c1 =>
        match (if i = 0 then t.getLast? else t[i - 1]?) with
        | none => none
        | some c0 =>
          if (isAsciiC c1 && c1 ≠ ' ') && (isAsciiC c0 && c0 ≠ ' ') then
            (replaceBlankGo t (i + 1)).map (c :: ·)
          else replaceBlankGo t (i + 1)
    else (replaceBlankGo t (i + 1)).map (c :: ·)
  else some []
termination_by t.length - i

/-- Embedding of `TextProcessor.replace_blank`. -/
def replace_blank (t : List Char) : Option (List Char) := replaceBlankGo t 0

/-- Punctuation class of `add_quotation_mark`. -/
def quotPunct (c : Char) : Bool :=
  c ∈ ['[', ']', '（', '）', '【', '】', '《', '》', '“', '“', '”', '”', '‘', '’']

/-- Case-insensitive literal prefix test (`re.IGNORECASE` at ASCII
granularity). -/
def ciPrefix (w l : List Char) : Bool :=
  (w.map upperAscii).isPrefixOf (l.map upperAscii)

/-- One quote-insertion pass for the keyword `w` over an unquoted text part,
with the lookbehinds (previous character neither an opening quote nor
punctuation), the lookahead (next character not punctuation), and the
trailing lookbehind (last matched character not a closing quote) of the
insertion pattern. -/
def substWordGo (w : List Char) : Nat → Option Char → List Char → List Char
  | _, _, [] => []
  | 0, _, l => l
  | fuel + 1, prev, c :: cs =>
    if w.isEmpty then c :: cs
    else if (prev != some '“') && (match prev with | some p => !quotPunct p | none => true) &&
        ciPrefix w (c :: cs) &&
        (match (c :: cs)[w.length]? with | some nx => !quotPunct nx | none => true) &&
        (((c :: cs).take w.length).getLast? != some '”') then
      '“' :: (w ++ '”' :: substWordGo w fuel (((c :: cs).take w.length).getLast?.getD c)
        ((c :: cs).drop w.length))
    else c :: substWordGo w fuel (some c) cs

/-- Find the first quoted span (an opening quote with a later closing quote,
non-greedy): returns the part before it, the span itself, and the rest. -/
def findQuoted (t : List Char) : Option (List Char × List Char × List Char) :=
  match t with
  | [] => none
  | c :: cs =>
    if c = '“' then
      let inner := cs.takeWhile (· ≠ '”')
      match cs.dropWhile (· ≠ '”') with
      | '”' :: rest => some ([], '“' :: inner ++ ['”'], rest)
      | _ =>
        match findQuoted cs with
        | some (pre, q, rest) => some (c :: pre, q, rest)
        | none => none
    else
      match findQuoted cs with
      | some (pre, q, rest) => some (c :: pre, q, rest)
      | none => none

/-- Split into parts alternating outside/inside quoted spans, as
`re.split` with a capturing non-greedy quoted-span pattern. -/
def splitQuoted (fuel : Nat) (t : List Char) : List (List Char) :=
  match fuel with
  | 0 => [t]
  | fuel + 1 =>
    match findQuoted t with
    | none => [t]
    | some (pre, q, rest) => pre :: q :: splitQuoted fuel rest

/-- Apply the keyword pass to the parts at even positions (outside quoted
spans) and rejoin. -/
def applyWordParts (w : List Char) : Nat → List (List Char) → List Char
  | _, [] => []
  | i, part :: rest =>
    (if i % 2 = 0 then substWordGo w part.length none part else part) ++
      applyWordParts w (i + 1) rest

/-- One keyword pass of `add_quotation_mark`. -/
def applyWord (w : List Char) (t : List Char) : List Char :=
  applyWordParts w 0 (splitQuoted t.length t)

/-- Embedding of `TextProcessor.add_quotation_mark`: removes newlines, then
`replace_blank` (whose index error aborts the call), bracket and corner-mark
normalization, and a quote-insertion pass per keyword, longest keyword
first, skipping keywords shorter than `minLength`. -/
def add_quotation_mark (t : List Char) (keywords : List (List Char))
    (minLength : Nat) : Option (List Char) :=
  let t1 := t.filter (· ≠ '\n')
  (replace_blank t1).map fun t2 =>
    let t3 := replace_corner_mark (replace_bracket t2)
    let kws := keywords.mergeSort (fun a b => b.length ≤ a.length)
    kws.foldl (fun acc w => if minLength ≤ w.length then applyWord w acc else acc) t3

/-! Shared lemmas about the embedding. -/

theorem isDig_ne_special (c : Char) (h : isDig c = true) :
    c ≠ ' ' ∧ c ≠ '+' ∧ c ≠ '-' := by
  refine ⟨fun e => ?_, fun e => ?_, fun e => ?_⟩ <;> subst e <;> exact absurd h (by decide)

theorem upperAscii_digit (c : Char) (h : isDig c = true) : upperAscii c = c := by
  simp only [isDig, Bool.and_eq_true, decide_eq_true_eq] at h
  unfold upperAscii
  rw [if_neg]
  simp only [Bool.and_eq_true, decide_eq_true_eq, not_and]
  omega

theorem map_upper_digits (l : List Char) (h : l.all isDig = true) : l.map upperAscii = l := by
  induction l with
  | nil => rfl
  | cons c cs ih =>
    simp only [List.all_cons, Bool.and_eq_true] at h
    simp [upperAscii_digit c h.1, ih h.2]

theorem filter_of_all (l : List Char) (p : Char → Bool)
    (hp : ∀ c ∈ l, p c = true) : l.filter p = l :=
  List.filter_eq_self.mpr hp

theorem convert_eq_core (y : Int) (rules : List (List Char × SuffixRule)) (s : List Char)
    (hne : s ≠ []) (hsp : ∀ c ∈ s, c ≠ ' ') (hm : s.head? ≠ some '-')
    (hp : s.head? ≠ some '+') (hu : s.map upperAscii = s) :
    convert_num_to_chinese y s rules = convertCore y [] s rules := by
  have he : s.isEmpty = false := by
    cases s with
    | nil => exact absurd rfl hne
    | cons a l => rfl
  have hf : s.filter (· ≠ ' ') = s :=
    filter_of_all s _ fun a ha => by simpa using hsp a ha
  unfold convert_num_to_chinese
  simp only [he, Bool.false_eq_true, if_false, hf]
  rw [if_neg, hu]
  intro hor
  cases hor with
  | inl h => exact hm h
  | inr h => exact hp h

theorem convert_digits_eq_core (y : Int) (rules : List (List Char × SuffixRule))
    (s : List Char) (hne : s ≠ []) (hd : s.all isDig = true) :
    convert_num_to_chinese y s rules = convertCore y [] s rules := by
  have hall := List.all_eq_true.mp hd
  refine convert_eq_core y rules s hne (fun c hc => (isDig_ne_special c (hall c hc)).1) ?_ ?_
    (map_upper_digits s hd)
  · intro h
    cases s with
    | nil => exact hne rfl
    | cons a l =>
      have := hall a (List.mem_cons_self a l)
      simp only [List.head?] at h
      rw [Option.some_inj] at h
      subst h
      exact absurd this (by decide)
  · intro h
    cases s with
    | nil => exact hne rfl
    | cons a l =>
      have := hall a (List.mem_cons_self a l)
      simp only [List.head?] at h
      rw [Option.some_inj] at h
      subst h
      exact absurd this (by decide)

theorem convert_signed_eq_core (y : Int) (rules : List (List Char × SuffixRule))
    (sign : Char) (s : List Char) (hsign : sign = '-' ∨ sign = '+')
    (hne : s ≠ []) (hd : s.all isDig = true) :
    convert_num_to_chinese y (sign :: s) rules =
      convertCore y (if sign = '-' then "负".data else []) s rules := by
  have hall := List.all_eq_true.mp hd
  have hnsp : ∀ c ∈ s, c ≠ ' ' := fun c hc => (isDig_ne_special c (hall c hc)).1
  have hnp : ∀ c ∈ s, c ≠ '+' := fun c hc => (isDig_ne_special c (hall c hc)).2.1
  have hnm : ∀ c ∈ s, c ≠ '-' := fun c hc => (isDig_ne_special c (hall c hc)).2.2
  have hssp : sign ≠ ' ' := by rcases hsign with h | h <;> subst h <;> decide
  have hfsp : (sign :: s).filter (· ≠ ' ') = sign :: s := by
    refine filter_of_all _ _ fun a ha => ?_
    rcases List.mem_cons.mp ha with h | h
    · subst h; simpa using hssp
    · simpa using hnsp a h
  unfold convert_num_to_chinese
  simp only [List.isEmpty_cons, Bool.false_eq_true, if_false, hfsp]
  rw [if_pos]
  · have hfp : (sign :: s).filter (· ≠ '+') =
        (if sign = '+' then [] else [sign]) ++ s.filter (· ≠ '+') := by
      simp only [List.filter_cons]
      split <;> rename_i hc <;> split <;> rename_i hc2 <;> simp_all
    have hfps : s.filter (· ≠ '+') = s := filter_of_all s _ fun a ha => by simpa using hnp a ha
    have hfms : s.filter (· ≠ '-') = s := filter_of_all s _ fun a ha => by simpa using hnm a ha
    have hfms2 : s.filter (fun x => !decide (x = '-')) = s :=
      filter_of_all s _ fun a ha => by simpa using hnm a ha
    have hfps2 : s.filter (fun x => !decide (x = '+')) = s :=
      filter_of_all s _ fun a ha => by simpa using hnp a ha
    rcases hsign with h | h <;> subst h
    · simp only [hfp, hfps, if_neg (by decide : ¬ ('-' : Char) = '+')]
      simp only [List.cons_append, List.nil_append, List.filter_cons,
        (by decide : (decide (('-' : Char) ≠ '-')) = false), Bool.false_eq_true, if_false, hfms]
      simp [List.head?, map_upper_digits s hd]
    · simp only [hfp, if_pos rfl, List.nil_append, hfps, hfms, hfms2, hfps2]
      simp [List.head?, map_upper_digits s hd, hfms2, hfps2]
  · simp only [List.head?]
    rcases hsign with h | h <;> subst h
    · exact Or.inl rfl
    · exact Or.inr rfl

theorem findSuffix_cons_match (suf : List Char) (r : SuffixRule)
    (rest : List (List Char × SuffixRule)) (s : List Char)
    (h : (suf.map upperAscii).isSuffixOf s = true) :
    findSuffix ((suf, r) :: rest) s = some (suf.map upperAscii, r) := by
  simp [findSuffix, h]

theorem ruleMode_lengths_none (r : SuffixRule) (n : Nat) (h : r.lengths = none) :
    ruleMode r n = r.mode := by
  simp [ruleMode, h]

theorem ruleMode_lengths_some (r : SuffixRule) (n : Nat) (L : List Nat)
    (h : r.lengths = some L) :
    ruleMode r n = if n ∈ L then r.mode else .low := by
  simp [ruleMode, h]

theorem convertCore_suffix (y : Int) (pre s : List Char)
    (rules : List (List Char × SuffixRule)) (u : List Char) (r : SuffixRule)
    (hf : findSuffix rules s = some (u, r))
    (hperc : ¬(u = "%".data ∨ u = "‰".data ∨ u = "‱".data)) (hune : u ≠ []) :
    convertCore y pre s rules =
      (an2cn (ruleMode r (s.take (s.length - u.length)).length)
        (s.take (s.length - u.length))).map (fun cn => pre ++ cn ++ u) := by
  have hue : u.isEmpty = false := by
    cases u with
    | nil => exact absurd rfl hune
    | cons a l => rfl
  unfold convertCore
  rw [hf]
  simp only [hue, Bool.false_eq_true, if_false, if_neg hperc]

theorem convertCore_no_suffix_low (y : Int) (pre s : List Char)
    (rules : List (List Char × SuffixRule)) (hf : findSuffix rules s = none)
    (h4 : ¬((¬s.isEmpty ∧ s.all isDig) ∧ s.length = 4 ∧
      (y - 1 ≤ (digitsToNat s : Int) ∧ (digitsToNat s : Int) ≤ y + 1)))
    (h0 : ¬((¬s.isEmpty ∧ s.all isDig) ∧ s.head? = some '0')) :
    convertCore y pre s rules = (an2cn .low s).map (pre ++ ·) := by
  unfold convertCore
  rw [hf]
  rw [if_neg h4, if_neg h0]

theorem convertCore_year_window (y : Int) (pre s : List Char)
    (rules : List (List Char × SuffixRule)) (hf : findSuffix rules s = none)
    (hc : (¬s.isEmpty ∧ s.all isDig) ∧ s.length = 4 ∧
      (y - 1 ≤ (digitsToNat s : Int) ∧ (digitsToNat s : Int) ≤ y + 1)) :
    convertCore y pre s rules = an2cn .direct s := by
  unfold convertCore
  rw [hf]
  rw [if_pos hc]

theorem convertCore_leading_zero (y : Int) (pre s : List Char)
    (rules : List (List Char × SuffixRule)) (hf : findSuffix rules s = none)
    (h4 : ¬((¬s.isEmpty ∧ s.all isDig) ∧ s.length = 4 ∧
      (y - 1 ≤ (digitsToNat s : Int) ∧ (digitsToNat s : Int) ≤ y + 1)))
    (h0 : (¬s.isEmpty ∧ s.all isDig) ∧ s.head? = some '0') :
    convertCore y pre s rules = an2cn .direct s := by
  unfold convertCore
  rw [hf]
  rw [if_neg h4, if_pos h0]

/-! Claims C2, C4, C5, C6, C7: the unit resolver and numeral converter. -/

/-- Claim C2, counterexample: `replace_chinese_number` is not independent of
the wall-clock year.  On the text `2026`, a call made in 2025 reads the token
digit-by-digit as a year, while a call made in 2030 reads it by place value,
so two calls with the same text and the same suffix table differ. -/
theorem c2_counterexample :
    replace_chinese_number 2025 "2026".data = some "二零二六".data ∧
    replace_chinese_number 2030 "2026".data = some "二千零二十六".data ∧
    replace_chinese_number 2025 "2026".data ≠ replace_chinese_number 2030 "2026".data := by
  refine ⟨by decide, by decide, by decide⟩

/-- Claim C2 (amended): the engine is deterministic only relative to the
current wall-clock year, which `convert_num_to_chinese` reads via
`datetime.datetime.now().year`; the year can only influence the conversion
of a (space-stripped, sign-stripped, upper-cased) token of exactly four
characters, so any token of a different length converts identically in any
two years. -/
theorem c2_deterministic_given_year (y1 y2 : Int)
    (rules : List (List Char × SuffixRule)) (s : List Char)
    (hne : s ≠ []) (hsp : ∀ c ∈ s, c ≠ ' ') (hm : s.head? ≠ some '-')
    (hp : s.head? ≠ some '+') (hu : s.map upperAscii = s) (hlen : s.length ≠ 4) :
    convert_num_to_chinese y1 s rules = convert_num_to_chinese y2 s rules := by
  rw [convert_eq_core y1 rules s hne hsp hm hp hu,
    convert_eq_core y2 rules s hne hsp hm hp hu]
  cases hf : findSuffix rules s with
  | some ur => simp only [convertCore, hf]
  | none =>
    simp only [convertCore, hf]
    have hw1 : ¬((¬s.isEmpty = true ∧ s.all isDig = true) ∧ s.length = 4 ∧
        (y1 - 1 ≤ (digitsToNat s : Int) ∧ (digitsToNat s : Int) ≤ y1 + 1)) :=
      fun hc => hlen hc.2.1
    have hw2 : ¬((¬s.isEmpty = true ∧ s.all isDig = true) ∧ s.length = 4 ∧
        (y2 - 1 ≤ (digitsToNat s : Int) ∧ (digitsToNat s : Int) ≤ y2 + 1)) :=
      fun hc => hlen hc.2.1
    rw [if_neg hw1, if_neg hw2]

/-- Witness for `c2_deterministic_given_year` at the token `26` and the
years 2025 and 2030. -/
theorem c2_witness :
    ("26".data ≠ ([] : List Char)) ∧ (∀ c ∈ "26".data, c ≠ ' ') ∧
    ("26".data.head? ≠ some '-') ∧ ("26".data.head? ≠ some '+') ∧
    ("26".data.map upperAscii = "26".data) ∧ ("26".data.length ≠ 4) ∧
    convert_num_to_chinese 2025 "26".data suffixRulesDefault =
      convert_num_to_chinese 2030 "26".data suffixRulesDefault :=
  ⟨by decide, by decide, by decide, by decide, by decide, by decide,
   c2_deterministic_given_year 2025 2030 suffixRulesDefault "26".data
     (by decide) (by decide) (by decide) (by decide) (by decide) (by decide)⟩

/-- Claim C4, counterexample: in `convert_num_to_chinese`, a leading `+`
yields no "positive" prefix word at all (the Python code sets the prefix to
the empty string unless the string starts with `-`): `+5` converts to the
bare word for five, which does not begin with the positive prefix word. -/
theorem c4_counterexample :
    convert_num_to_chinese 2025 "+5".data [] = some "五".data ∧
    ¬ ("正".data.isPrefixOf "五".data = true) := by
  refine ⟨by decide, by decide⟩

/-- Claim C4 (amended): in `convert_num_to_chinese`, a leading `-` yields
the "negative" prefix word before the place-value reading of the magnitude
and a leading `+` yields no prefix word at all, provided the magnitude is a
digit string that matches no suffix rule and falls into the place-value
fallback (not the year-window or leading-zero digit-by-digit branches, which
drop the sign prefix). -/
theorem c4_sign_prefixes (y : Int) (rules : List (List Char × SuffixRule))
    (s : List Char) (hne : s ≠ []) (hd : s.all isDig = true)
    (hf : findSuffix rules s = none)
    (h4 : ¬(s.length = 4 ∧
      (y - 1 ≤ (digitsToNat s : Int) ∧ (digitsToNat s : Int) ≤ y + 1)))
    (h0 : s.head? ≠ some '0') :
    convert_num_to_chinese y ('-' :: s) rules = (an2cn .low s).map ("负".data ++ ·) ∧
    convert_num_to_chinese y ('+' :: s) rules = an2cn .low s := by
  have h4' : ¬((¬s.isEmpty ∧ s.all isDig) ∧ s.length = 4 ∧
      (y - 1 ≤ (digitsToNat s : Int) ∧ (digitsToNat s : Int) ≤ y + 1)) :=
    fun hc => h4 hc.2
  have h0' : ¬((¬s.isEmpty ∧ s.all isDig) ∧ s.head? = some '0') :=
    fun hc => h0 hc.2
  constructor
  · rw [convert_signed_eq_core y rules '-' s (Or.inl rfl) hne hd]
    rw [if_pos rfl]
    exact convertCore_no_suffix_low y _ s rules hf h4' h0'
  · rw [convert_signed_eq_core y rules '+' s (Or.inr rfl) hne hd]
    rw [if_neg (by decide : ¬ ('+' : Char) = '-')]
    rw [convertCore_no_suffix_low y _ s rules hf h4' h0']
    cases an2cn .low s <;> simp

/-- Witness for `c4_sign_prefixes` at the magnitude `26` in the year
2025. -/
theorem c4_witness :
    ("26".data ≠ ([] : List Char)) ∧ ("26".data.all isDig = true) ∧
    (findSuffix [] "26".data = none) ∧
    (¬("26".data.length = 4 ∧
      ((2025 : Int) - 1 ≤ (digitsToNat "26".data : Int) ∧
        (digitsToNat "26".data : Int) ≤ (2025 : Int) + 1))) ∧
    ("26".data.head? ≠ some '0') ∧
    (convert_num_to_chinese 2025 ('-' :: "26".data) [] =
      (an2cn .low "26".data).map ("负".data ++ ·) ∧
     convert_num_to_chinese 2025 ('+' :: "26".data) [] = an2cn .low "26".data) :=
  ⟨by decide, by decide, by decide, by decide, by decide,
   c4_sign_prefixes 2025 [] "26".data (by decide) (by decide) (by decide)
     (by decide) (by decide)⟩

/-- Claim C5, counterexample: the suffix scan of `convert_num_to_chinese`
applies the first matching rule in table iteration order, not the rule of
the longest matching suffix.  On the token `123天` with a table containing
the suffixes `天` and `23天` (both trailing matches, the second longer),
the applied rule is that of whichever suffix comes first, so reordering the
table changes the output and the longest match is not selected. -/
theorem c5_counterexample :
    convert_num_to_chinese 2025 "123天".data
      [("天".data, ⟨.low, none⟩), ("23天".data, ⟨.direct, none⟩)] =
      some "一百二十三天".data ∧
    convert_num_to_chinese 2025 "123天".data
      [("23天".data, ⟨.direct, none⟩), ("天".data, ⟨.low, none⟩)] =
      some "一23天".data ∧
    some "一百二十三天".data ≠ some "一23天".data := by
  refine ⟨by decide, by decide, by decide⟩

/-- Claim C5 (amended): the suffix scan applies the rule of the first
suffix, in table iteration order, that is a case-insensitive literal
trailing match of the token, regardless of any later (possibly longer)
matching suffixes; matching compares the upper-cased suffix against the
upper-cased token, so alphabetic suffix matching is case-insensitive. -/
theorem c5_first_match (y : Int) (s1 : List Char) (r1 : SuffixRule)
    (rest : List (List Char × SuffixRule)) (s : List Char)
    (hne : s ≠ []) (hsp : ∀ c ∈ s, c ≠ ' ') (hm : s.head? ≠ some '-')
    (hp : s.head? ≠ some '+') (hu : s.map upperAscii = s)
    (hmatch : (s1.map upperAscii).isSuffixOf s = true)
    (hperc : ¬(s1.map upperAscii = "%".data ∨ s1.map upperAscii = "‰".data ∨
      s1.map upperAscii = "‱".data))
    (hune : s1 ≠ []) (hL : r1.lengths = none) :
    convert_num_to_chinese y s ((s1, r1) :: rest) =
      (an2cn r1.mode (s.take (s.length - s1.length))).map
        (fun cn => cn ++ s1.map upperAscii) := by
  rw [convert_eq_core y _ s hne hsp hm hp hu]
  rw [convertCore_suffix y [] s _ (s1.map upperAscii) r1
    (findSuffix_cons_match s1 r1 rest s hmatch) hperc
    (fun he => hune (List.map_eq_nil_iff.mp he))]
  rw [ruleMode_lengths_none r1 _ hL, List.length_map]
  simp only [List.nil_append]

/-- Witness for `c5_first_match`: the table holds the lower-case suffix
`kg` first and the longer suffix `3KG` second; on the token `123KG` the
first rule is applied case-insensitively. -/
theorem c5_witness :
    ("123KG".data ≠ ([] : List Char)) ∧ (∀ c ∈ "123KG".data, c ≠ ' ') ∧
    ("123KG".data.head? ≠ some '-') ∧ ("123KG".data.head? ≠ some '+') ∧
    ("123KG".data.map upperAscii = "123KG".data) ∧
    (("kg".data.map upperAscii).isSuffixOf "123KG".data = true) ∧
    convert_num_to_chinese 2025 "123KG".data
      [("kg".data, ⟨.low, none⟩), ("3KG".data, ⟨.direct, none⟩)] =
      (an2cn .low ("123KG".data.take ("123KG".data.length - "kg".data.length))).map
        (fun cn => cn ++ "kg".data.map upperAscii) :=
  ⟨by decide, by decide, by decide, by decide, by decide, by decide,
   c5_first_match 2025 "kg".data ⟨.low, none⟩ [("3KG".data, ⟨.direct, none⟩)]
     "123KG".data (by decide) (by decide) (by decide) (by decide) (by decide)
     (by decide) (by decide) (by decide) rfl⟩

/-- Claim C6, counterexample: for the percent-type suffixes the matched
suffix is not appended to the result even when a length set is present and
violated: with the rule table binding `%` to direct mode with allowed
length 2, the token `123%` converts to a "percent of" reading that does not
contain the suffix. -/
theorem c6_counterexample :
    convert_num_to_chinese 2025 "123%".data [("%".data, ⟨.direct, some [2]⟩)] =
      some "百分之一百二十三".data ∧
    ¬ ('%' ∈ "百分之一百二十三".data) := by
  refine ⟨by decide, by decide⟩

/-- Claim C6 (amended): when the suffix selected by the scan is not one of
the percent-type suffixes and carries an allowed-length set that excludes
the numeral length, the numeral is converted by place value rather than in
the rule mode, and the suffix is appended; a percent-type suffix instead
always converts by place value behind a "percent of" word, without the
suffix being appended. -/
theorem c6_length_fallback (y : Int) (rules : List (List Char × SuffixRule))
    (s u : List Char) (r : SuffixRule) (L : List Nat)
    (hne : s ≠ []) (hsp : ∀ c ∈ s, c ≠ ' ') (hm : s.head? ≠ some '-')
    (hp : s.head? ≠ some '+') (hu : s.map upperAscii = s)
    (hf : findSuffix rules s = some (u, r))
    (hperc : ¬(u = "%".data ∨ u = "‰".data ∨ u = "‱".data)) (hune : u ≠ [])
    (hL : r.lengths = some L) (hnin : s.length - u.length ∉ L) :
    convert_num_to_chinese y s rules =
      (an2cn .low (s.take (s.length - u.length))).map (· ++ u) := by
  rw [convert_eq_core y rules s hne hsp hm hp hu]
  rw [convertCore_suffix y [] s rules u r hf hperc hune]
  have hlen : (s.take (s.length - u.length)).length = s.length - u.length := by
    simp [List.length_take]
  rw [ruleMode_lengths_some r _ L hL, hlen, if_neg hnin]
  simp only [List.nil_append]

/-- Witness for `c6_length_fallback`: the suffix `天` configured in direct
mode with allowed length 2, violated by the three-digit token `123天`. -/
theorem c6_witness :
    ("123天".data ≠ ([] : List Char)) ∧ (∀ c ∈ "123天".data, c ≠ ' ') ∧
    ("123天".data.head? ≠ some '-') ∧ ("123天".data.head? ≠ some '+') ∧
    ("123天".data.map upperAscii = "123天".data) ∧
    (findSuffix [("天".data, ⟨.direct, some [2]⟩)] "123天".data =
      some ("天".data, ⟨.direct, some [2]⟩)) ∧
    ("123天".data.length - "天".data.length ∉ [2]) ∧
    convert_num_to_chinese 2025 "123天".data [("天".data, ⟨.direct, some [2]⟩)] =
      (an2cn .low ("123天".data.take ("123天".data.length - "天".data.length))).map
        (· ++ "天".data) :=
  ⟨by decide, by decide, by decide, by decide, by decide, by decide, by decide,
   c6_length_fallback 2025 [("天".data, ⟨.direct, some [2]⟩)] "123天".data
     "天".data ⟨.direct, some [2]⟩ [2] (by decide) (by decide) (by decide)
     (by decide) (by decide) (by decide) (by decide) (by decide) rfl (by decide)⟩

/-- Claim C7, counterexample: an unsuffixed token starting with `0` is not
always read digit-by-digit: the decimal token `01.5` fails Python
`str.isdigit`, so it is read by place value (its leading zero being dropped
by the integer conversion), which differs from the digit-by-digit
reading. -/
theorem c7_counterexample :
    convert_num_to_chinese 2025 "01.5".data suffixRulesDefault = some "一点五".data ∧
    an2cn .direct "01.5".data = some "零一点五".data ∧
    some "一点五".data ≠ some "零一点五".data := by
  refine ⟨by decide, by decide, by decide⟩

/-- Claim C7 (amended): for an unsuffixed token, a pure digit string of
length 4 whose value lies within one year of the current year is read
digit-by-digit; outside that case a pure digit string with a leading zero is
read digit-by-digit; every other unsuffixed token, including a decimal with
a leading zero, is converted by place value. -/
theorem c7_no_suffix_fallback (y : Int) (rules : List (List Char × SuffixRule))
    (d : List Char) (hne : d ≠ []) (hsp : ∀ c ∈ d, c ≠ ' ')
    (hm : d.head? ≠ some '-') (hp : d.head? ≠ some '+')
    (hu : d.map upperAscii = d) (hf : findSuffix rules d = none) :
    ((d.all isDig = true ∧ d.length = 4 ∧
        (y - 1 ≤ (digitsToNat d : Int) ∧ (digitsToNat d : Int) ≤ y + 1)) →
      convert_num_to_chinese y d rules = an2cn .direct d) ∧
    ((¬(d.all isDig = true ∧ d.length = 4 ∧
        (y - 1 ≤ (digitsToNat d : Int) ∧ (digitsToNat d : Int) ≤ y + 1))) →
      d.all isDig = true → d.head? = some '0' →
      convert_num_to_chinese y d rules = an2cn .direct d) ∧
    ((¬(d.all isDig = true ∧ d.length = 4 ∧
        (y - 1 ≤ (digitsToNat d : Int) ∧ (digitsToNat d : Int) ≤ y + 1))) →
      ¬(d.all isDig = true ∧ d.head? = some '0') →
      convert_num_to_chinese y d rules = an2cn .low d) := by
  have hcore := convert_eq_core y rules d hne hsp hm hp hu
  have hie : ¬d.isEmpty := by
    cases d with
    | nil => exact absurd rfl hne
    | cons a l => simp
  refine ⟨fun hA => ?_, fun hA hdig h0 => ?_, fun hA hB => ?_⟩
  · rw [hcore]
    exact convertCore_year_window y [] d rules hf ⟨⟨hie, hA.1⟩, hA.2⟩
  · rw [hcore]
    refine convertCore_leading_zero y [] d rules hf ?_ ⟨⟨hie, hdig⟩, h0⟩
    intro hc
    exact hA ⟨hc.1.2, hc.2⟩
  · rw [hcore]
    rw [convertCore_no_suffix_low y [] d rules hf
      (fun hc => hA ⟨hc.1.2, hc.2⟩) (fun hc => hB ⟨hc.1.2, hc.2⟩)]
    cases an2cn .low d <;> simp

/-- Witness for `c7_no_suffix_fallback`: the year token `2025` in the year
2025 with an empty rule table, hitting the year-window branch. -/
theorem c7_witness :
    ("2025".data ≠ ([] : List Char)) ∧ (∀ c ∈ "2025".data, c ≠ ' ') ∧
    ("2025".data.head? ≠ some '-') ∧ ("2025".data.head? ≠ some '+') ∧
    ("2025".data.map upperAscii = "2025".data) ∧
    (findSuffix [] "2025".data = none) ∧
    ("2025".data.all isDig = true ∧ "2025".data.length = 4 ∧
      ((2025 : Int) - 1 ≤ (digitsToNat "2025".data : Int) ∧
        (digitsToNat "2025".data : Int) ≤ (2025 : Int) + 1)) ∧
    convert_num_to_chinese 2025 "2025".data [] = an2cn .direct "2025".data :=
  ⟨by decide, by decide, by decide, by decide, by decide, by decide, by decide,
   (c7_no_suffix_fallback 2025 [] "2025".data (by decide) (by decide) (by decide)
     (by decide) (by decide) (by decide)).1 (by decide)⟩

/-! Claims C1, C3, C8: the full normalization pipeline on concrete inputs. -/

/-- Claim C1, counterexample: a failing per-match conversion is not caught.
The datetime pattern matches `2025-04/14` (its two separators may differ),
the date part then contains a dash, so `convert_datetime_to_chinese` splits
on the dash into two components instead of three and its unpacking fails;
the exception propagates out of the substitution and
`replace_chinese_number` fails as a whole instead of passing the matched
substring through unchanged. -/
theorem c1_counterexample :
    replace_chinese_number 2025 "2025-04/14".data = none := by decide

/-- Claim C1 (amended): `replace_chinese_number` contains no handler for
per-match conversion failures: when converting a matched substring fails
(here the matched datetime span `2025-04/14`, whose mixed separators make
the date-component split fail), the failure aborts the entire call in every
year, rather than being caught at the scope of the single match with the
original substring passed through. -/
theorem c1_failure_propagates :
    ∀ y : Int, replace_chinese_number y "2025-04/14".data = none :=
  fun _ => rfl

/-- Claim C3, counterexample: normalizing `2025-04-14 22:58:46,965` does not
yield the claimed string ending in a digit-by-digit millisecond reading,
because the millisecond component is converted by the default place-value
mode. -/
theorem c3_counterexample :
    replace_chinese_number 2025 "2025-04-14 22:58:46,965".data ≠
      some "二零二五年四月十四日二十二时五十八分四十六秒九六五毫秒".data := by
  decide

/-- Claim C3 (amended): normalizing `2025-04-14 22:58:46,965` yields, in
every year, the datetime reading with the year digit-by-digit, month, day,
hour, minute and second by place value after stripping leading zeros, and
the millisecond part read by place value (nine hundred sixty-five) before
the milliseconds word. -/
theorem c3_datetime_example :
    ∀ y : Int, replace_chinese_number y "2025-04-14 22:58:46,965".data =
      some "二零二五年四月十四日二十二时五十八分四十六秒九百六十五毫秒".data :=
  fun _ => rfl

/-- Claim C8: normalizing `+86-13987654321` produces, in every year, the
digit-by-digit reading of all thirteen digits with the plus sign and hyphen
stripped and no "positive" prefix word, because the phone stage consumes the
token before the arithmetic, bare-number and sign stages run. -/
theorem c8_phone_direct :
    ∀ y : Int, replace_chinese_number y "+86-13987654321".data =
      some "八六一三九八七六五四三二一".data :=
  fun _ => rfl

/-! Claim C9: texts without digits or arithmetic symbols are fixed points. -/

/-- Characters on which no normalization stage can start a match and which
the terminal symbol replacement does not touch: not an ASCII digit and none
of plus, minus, star, slash, equals. -/
def cleanChar (c : Char) : Bool :=
  !(isDig c) && (c != '+') && (c != '-') && (c != '*') && (c != '/') && (c != '=')

theorem cleanChar_props (c : Char) (h : cleanChar c = true) :
    isDig c = false ∧ c ≠ '+' ∧ c ≠ '-' ∧ c ≠ '*' ∧ c ≠ '/' ∧ c ≠ '=' := by
  simp only [cleanChar, Bool.and_eq_true, bne_iff_ne, Bool.not_eq_true'] at h
  exact ⟨h.1.1.1.1.1, h.1.1.1.1.2, h.1.1.1.2, h.1.1.2, h.1.2, h.2⟩

theorem pseq_none_left (p q : P) (l : List Char) (h : p l = none) : pseq p q l = none := by
  simp [pseq, h]

theorem palt_none (p q : P) (l : List Char) (hp : p l = none) (hq : q l = none) :
    palt p q l = none := by
  simp [palt, hp, hq]

theorem pch_cons_none (f : Char → Bool) (c : Char) (cs : List Char) (h : f c = false) :
    pch f (c :: cs) = none := by
  simp [pch, h]

theorem pexact_cons_none (f : Char → Bool) (n : Nat) (c : Char) (cs : List Char)
    (h : f c = false) : pexact f (n + 1) (c :: cs) = none :=
  pseq_none_left _ _ _ (pch_cons_none f c cs h)

theorem prun1_cons_none (f : Char → Bool) (c : Char) (cs : List Char)
    (h : f c = false) : prun1 f (c :: cs) = none := by
  simp [prun1, h]

theorem pstrL_cons_none (s : String) (c : Char) (cs : List Char) (d : Char)
    (ds : List Char) (hs : s.data = d :: ds) (h : d ≠ c) : pstrL s (c :: cs) = none := by
  simp [pstrL, hs, List.isPrefixOf, beq_eq_false_iff_ne.mpr h]

theorem d12_cons_none (k : P) (c : Char) (cs : List Char) (h : isDig c = false) :
    d12 k (c :: cs) = none :=
  palt_none _ _ _ (pseq_none_left _ _ _ (pexact_cons_none _ _ _ _ h))
    (pseq_none_left _ _ _ (pexact_cons_none _ _ _ _ h))

theorem signP_cons_none (c : Char) (cs : List Char) (hp : c ≠ '+') (hm : c ≠ '-') :
    signP (c :: cs) = none :=
  pch_cons_none _ _ _ (by simp [hp, hm])

theorem numThen_cons_none (k : P) (c : Char) (cs : List Char) (hd : isDig c = false)
    (hp : c ≠ '+') (hm : c ≠ '-') : numThen k (c :: cs) = none :=
  palt_none _ _ _ (pseq_none_left _ _ _ (signP_cons_none c cs hp hm))
    (pseq_none_left _ _ _ (prun1_cons_none _ _ _ hd))

theorem datetimeM_cons_none (c : Char) (cs : List Char) (hd : isDig c = false) :
    datetimeM (c :: cs) = none :=
  pseq_none_left _ _ _ (pexact_cons_none _ _ _ _ hd)

theorem timefullM_cons_none (c : Char) (cs : List Char) (hd : isDig c = false) :
    timefullM (c :: cs) = none :=
  d12_cons_none _ c cs hd

theorem timeM_cons_none (c : Char) (cs : List Char) (hd : isDig c = false) :
    timeM (c :: cs) = none :=
  d12_cons_none _ c cs hd

theorem phoneM_cons_none (c : Char) (cs : List Char) (hd : isDig c = false)
    (hp : c ≠ '+') : phoneM (c :: cs) = none := by
  have h8 : ('8' : Char) ≠ c := fun e => by rw [← e] at hd; exact absurd hd (by decide)
  have h1 : c ≠ '1' := fun e => by subst e; exact absurd hd (by decide)
  have hplus : plusP (c :: cs) = none := pch_cons_none _ _ _ (by simp [hp])
  have h86 : pstrL "86" (c :: cs) = none := pstrL_cons_none _ _ _ '8' ['6'] rfl h8
  have a1 : phAlt1 (c :: cs) = none :=
    palt_none _ _ _ (pseq_none_left _ _ _ hplus) (pseq_none_left _ _ _ h86)
  have a2 : phAlt2 (c :: cs) = none :=
    pseq_none_left _ _ _ (pch_cons_none _ _ _ (by simp [h1]))
  have a3 : phAlt3 (c :: cs) = none :=
    palt_none _ _ _ (pseq_none_left _ _ _ (pexact_cons_none _ _ _ _ hd))
      (pseq_none_left _ _ _ (pexact_cons_none _ _ _ _ hd))
  have a4 : phAlt4 (c :: cs) = none := pseq_none_left _ _ _ hplus
  exact palt_none _ _ _ a1 (palt_none _ _ _ a2 (palt_none _ _ _ a3 a4))

theorem mathM_cons_none (c : Char) (cs : List Char) (hd : isDig c = false)
    (hp : c ≠ '+') (hm : c ≠ '-') : mathM (c :: cs) = none :=
  numThen_cons_none _ c cs hd hp hm

theorem numberM_cons_none (prev : Option Char) (c : Char) (cs : List Char)
    (hd : isDig c = false) (hp : c ≠ '+') (hm : c ≠ '-') :
    numberM prev (c :: cs) = none := by
  have a1 : nAlt1 (c :: cs) = none := numThen_cons_none _ c cs hd hp hm
  have a2 : nAlt2 (c :: cs) = none :=
    palt_none _ _ _ (pseq_none_left _ _ _ (signP_cons_none c cs hp hm))
      (pseq_none_left _ _ _ (prun1_cons_none _ _ _ hd))
  simp [numberM, a1, a2]

theorem signM_cons_none (prev : Option Char) (c : Char) (cs : List Char)
    (hp : c ≠ '+') (hm : c ≠ '-') : signM prev (c :: cs) = none := by
  simp [signM, pseq_none_left _ _ _ (signP_cons_none c cs hp hm)]

theorem reSub_clean_id (m : Option Char → P) (f : List Char → Option (List Char))
    (hm : ∀ prev c cs, cleanChar c = true → m prev (c :: cs) = none) :
    ∀ (fuel : Nat) (prev : Option Char) (t : List Char), t.all cleanChar = true →
      reSub m f fuel prev t = some t := by
  intro fuel
  induction fuel with
  | zero =>
    intro prev t _
    cases t <;> rfl
  | succ n ih =>
    intro prev t ht
    cases t with
    | nil => rfl
    | cons c cs =>
      simp only [List.all_cons, Bool.and_eq_true] at ht
      have h1 := hm prev c cs ht.1
      have h2 := ih (some c) cs ht.2
      simp [reSub, h1, h2]

theorem replChar_id (sym : Char) (name t : List Char) (h : ∀ c ∈ t, c ≠ sym) :
    replChar sym name t = t := by
  induction t with
  | nil => rfl
  | cons c cs ih =>
    have hc : c ≠ sym := h c (List.mem_cons_self c cs)
    have hrec : replChar sym name cs = cs := ih fun a ha => h a (List.mem_cons_of_mem c ha)
    simp only [replChar, List.foldr_cons] at hrec ⊢
    rw [if_neg hc, hrec]

/-- Claim C9: `replace_chinese_number` is the identity on normalized text.
For every input containing no ASCII digit and none of the symbols plus,
minus, star, slash, equals, no stage matcher can start a match and the
terminal symbol replacement finds nothing, so the text is returned
unchanged (in every year). -/
theorem c9_idempotent_on_clean_text (y : Int) (t : List Char)
    (h : t.all cleanChar = true) : replace_chinese_number y t = some t := by
  have hall := List.all_eq_true.mp h
  have s1 := reSub_clean_id (fun _ => datetimeM) convert_datetime_to_chinese
    (fun _ c cs hc => datetimeM_cons_none c cs (cleanChar_props c hc).1) t.length none t h
  have s2 := reSub_clean_id (fun _ => timefullM) convert_timefull_to_chinese
    (fun _ c cs hc => timefullM_cons_none c cs (cleanChar_props c hc).1) t.length none t h
  have s3 := reSub_clean_id (fun _ => timeM) convert_time_to_chinese
    (fun _ c cs hc => timeM_cons_none c cs (cleanChar_props c hc).1) t.length none t h
  have s4 := reSub_clean_id (fun _ => phoneM) replPhone
    (fun _ c cs hc => phoneM_cons_none c cs (cleanChar_props c hc).1
      (cleanChar_props c hc).2.1) t.length none t h
  have s5 := reSub_clean_id (fun _ => mathM) replMath
    (fun _ c cs hc => mathM_cons_none c cs (cleanChar_props c hc).1
      (cleanChar_props c hc).2.1 (cleanChar_props c hc).2.2.1) t.length none t h
  have s6 := reSub_clean_id numberM (replText y)
    (fun prev c cs hc => numberM_cons_none prev c cs (cleanChar_props c hc).1
      (cleanChar_props c hc).2.1 (cleanChar_props c hc).2.2.1) t.length none t h
  have s7 := reSub_clean_id signM replSign
    (fun prev c cs hc => signM_cons_none prev c cs (cleanChar_props c hc).2.1
      (cleanChar_props c hc).2.2.1) t.length none t h
  have r1 := replChar_id '+' "加".data t fun c hc => (cleanChar_props c (hall c hc)).2.1
  have r2 := replChar_id '-' "杠".data t fun c hc => (cleanChar_props c (hall c hc)).2.2.1
  have r3 := replChar_id '*' "星".data t fun c hc => (cleanChar_props c (hall c hc)).2.2.2.1
  have r4 := replChar_id '/' "斜杠".data t fun c hc => (cleanChar_props c (hall c hc)).2.2.2.2.1
  have r5 := replChar_id '=' "等于".data t fun c hc => (cleanChar_props c (hall c hc)).2.2.2.2.2
  simp [replace_chinese_number, s1, s2, s3, s4, s5, s6, s7, r1, r2, r3, r4, r5]

/-- Witness for `c9_idempotent_on_clean_text` on an already-normalized
Chinese sentence. -/
theorem c9_witness :
    ("你好，世界。".data.all cleanChar = true) ∧
    replace_chinese_number 2025 "你好，世界。".data = some "你好，世界。".data :=
  ⟨by decide, c9_idempotent_on_clean_text 2025 "你好，世界。".data (by decide)⟩

/-! Claim C10: a trailing space crashes the quotation interface. -/

theorem getLast?_filter_newline (t : List Char) (h : t.getLast? = some ' ') :
    (t.filter (· ≠ '\n')).getLast? = some ' ' := by
  induction t with
  | nil => simp at h
  | cons c cs ih =>
    cases cs with
    | nil =>
      simp only [List.getLast?_singleton, Option.some_inj] at h
      subst h
      decide
    | cons d ds =>
      rw [List.getLast?_cons_cons] at h
      have ihh := ih h
      rw [List.filter_cons]
      split
      · cases hfl : (d :: ds).filter (· ≠ '\n') with
        | nil => rw [hfl] at ihh; simp at ihh
        | cons e es =>
          rw [hfl] at ihh
          rw [List.getLast?_cons_cons]
          exact ihh
      · exact ihh

theorem replaceBlankGo_none_aux (t : List Char) (j : Nat) (hj : j + 1 = t.length)
    (hsp : t[j]? = some ' ') :
    ∀ (k i : Nat), i + k = j → replaceBlankGo t i = none := by
  intro k
  induction k with
  | zero =>
    intro i hik
    have hij : i = j := by omega
    subst hij
    have hlt : i < t.length := by omega
    have hget : t.get ⟨i, hlt⟩ = ' ' := by
      rw [List.getElem?_eq_getElem hlt] at hsp
      simpa using hsp
    have hnext : t[i + 1]? = none := by
      rw [List.getElem?_eq_none]
      omega
    rw [replaceBlankGo, dif_pos hlt, if_pos hget, hnext]
  | succ n ih =>
    intro i hik
    have hlt : i < t.length := by omega
    have ihrec : replaceBlankGo t (i + 1) = none := ih (i + 1) (by omega)
    rw [replaceBlankGo, dif_pos hlt]
    simp only [ihrec, Option.map_none', ite_self]
    by_cases hc : t.get ⟨i, hlt⟩ = ' '
    · rw [if_pos hc]
      cases t[i + 1]? with
      | none => rfl
      | some c1 =>
        cases (if i = 0 then t.getLast? else t[i - 1]?) with
        | none => rfl
        | some c0 => rfl
    · rw [if_neg hc]

/-- Claim C10: for every input text whose final character is a space,
`add_quotation_mark` fails with an index error instead of returning an
annotated string: its `replace_blank` pre-normalization reads the character
after each space, which does not exist for the final one. -/
theorem c10_trailing_space_fails (t : List Char) (kws : List (List Char)) (ml : Nat)
    (hl : t.getLast? = some ' ') :
    add_quotation_mark t kws ml = none := by
  have h1 : (t.filter (· ≠ '\n')).getLast? = some ' ' := getLast?_filter_newline t hl
  have hne : t.filter (· ≠ '\n') ≠ [] := by
    intro e
    rw [e] at h1
    simp at h1
  have hlen : 0 < (t.filter (· ≠ '\n')).length := List.length_pos.mpr hne
  have hj : ((t.filter (· ≠ '\n')).length - 1) + 1 = (t.filter (· ≠ '\n')).length := by
    omega
  have hsp : (t.filter (· ≠ '\n'))[(t.filter (· ≠ '\n')).length - 1]? = some ' ' := by
    rw [← List.getLast?_eq_getElem?]
    exact h1
  have hgo : replaceBlankGo (t.filter (· ≠ '\n')) 0 = none :=
    replaceBlankGo_none_aux _ _ hj hsp ((t.filter (· ≠ '\n')).length - 1) 0 (by omega)
  unfold add_quotation_mark replace_blank
  simp only [hgo, Option.map_none']

/-- Witness for `c10_trailing_space_fails` on a short text ending in a
space. -/
theorem c10_witness :
    ("你好 ".data.getLast? = some ' ') ∧
    add_quotation_mark "你好 ".data ["北京".data] 2 = none :=
  ⟨by decide, c10_trailing_space_fails "你好 ".data ["北京".data] 2 (by decide)⟩

end TextProc
